import Mathlib

/-!
Verification development for the `agent_trust_stack` repository
(event ledger plus metrics computation engine).

The Python source is shallowly embedded as follows:
* floating point numbers are modelled as real numbers (`ℝ`); event input
  fields and timestamps, which only ever flow through field operations and
  comparisons, are modelled as rationals (`ℚ`) so the ledger queries stay
  decidable;
* timestamps are seconds since an arbitrary epoch (the source's
  `datetime.total_seconds()` view);
* Python dicts keyed by event id are modelled as the insertion-ordered list
  of their values; key lookup becomes `List.find?`;
* SHA-256 is treated as an abstract function `String → String` passed as a
  parameter (its cryptographic behaviour plays no role in any statement).
-/

/-- Possible outcomes for delivery events (`ledger.py`, `DeliveryOutcome`).
The source constructor `PARTIAL` is rendered `partial_delivery` here. -/
inductive DeliveryOutcome where
  | delivered
  | failed
  | partial_delivery
deriving DecidableEq, Repr

/-- Impact tiers for promises (`ledger.py`, `ImpactTier`). -/
inductive ImpactTier where
  | critical
  | high
  | medium
  | low
deriving DecidableEq, Repr

/-- String value of an impact tier, as used for the weight-dict lookup
(`promise.impact_tier.value` in `metrics.py`). -/
def ImpactTier.value : ImpactTier → String
  | .critical => "critical"
  | .high => "high"
  | .medium => "medium"
  | .low => "low"

/-- Types of memory distortions (`ledger.py`, `DistortionType`). -/
inductive DistortionType where
  | hallucination
  | confabulation
  | temporal_drift
  | attribute_mixup
  | context_loss
deriving DecidableEq, Repr

/-- Status of distortion corrections (`ledger.py`, `CorrectionStatus`). -/
inductive CorrectionStatus where
  | uncorrected
  | corrected
  | partially_corrected
deriving DecidableEq, Repr

/-- Promise event (`ledger.py`, `PromiseEvent`).  The open `metadata` map is
omitted: no ledger query or metric reads it. -/
structure PromiseEvent where
  id : String
  agent_id : String
  promise_text : String
  impact_tier : ImpactTier
  timestamp : ℚ
deriving DecidableEq, Repr

/-- Delivery event (`ledger.py`, `DeliveryEvent`).  The optional
`delivered_amount` and `expected_amount` fields are carried but never read by
the metrics engine. -/
structure DeliveryEvent where
  id : String
  promise_id : String
  outcome : DeliveryOutcome
  timestamp : ℚ
  delivered_amount : Option ℚ := none
  expected_amount : Option ℚ := none
deriving DecidableEq, Repr

/-- Recourse event (`ledger.py`, `RecourseEvent`). -/
structure RecourseEvent where
  id : String
  promise_id : String
  action : String
  resolution : String
  timestamp : ℚ
deriving DecidableEq, Repr

/-- Dependency event (`ledger.py`, `DependencyEvent`). -/
structure DependencyEvent where
  id : String
  workflow_id : String
  dependency_id : String
  workflow_weight : ℚ
  failure_rate : ℚ
  fallback_score : ℚ
  timestamp : ℚ
deriving DecidableEq, Repr

/-- Memory distortion event (`ledger.py`, `MemoryDistortionEvent`). -/
structure MemoryDistortionEvent where
  id : String
  session_id : String
  distortion_type : DistortionType
  correction_status : CorrectionStatus
  timestamp : ℚ
deriving DecidableEq, Repr

/-- Canonical email ledger entry (`ledger.py`, `EmailLedgerEntry`). -/
structure EmailLedgerEntry where
  message_id : String
  from_addr : String
  to_addr : String
  timestamp : ℚ
  signer : String
  body_hash : String
  headers_hash : String
  in_reply_to : Option String := none
  references : List String := []
  signature_chain : List String := []
deriving DecidableEq, Repr

/-- The in-memory ledger (`ledger.py`, `Ledger.__init__`).  Each Python dict
keyed by event id is modelled by its insertion-ordered list of values. -/
structure Ledger where
  promises : List PromiseEvent := []
  deliveries : List DeliveryEvent := []
  recourses : List RecourseEvent := []
  dependencies : List DependencyEvent := []
  memory_distortions : List MemoryDistortionEvent := []
  email_entries : List EmailLedgerEntry := []

/-- Source `Ledger.get_deliveries_for_promise` (`ledger.py` line 549). -/
def Ledger.get_deliveries_for_promise (l : Ledger) (promise_id : String) :
    List DeliveryEvent :=
  l.deliveries.filter (fun d => d.promise_id == promise_id)

/-- Source `Ledger.get_recourses_for_promise` (`ledger.py` line 553). -/
def Ledger.get_recourses_for_promise (l : Ledger) (promise_id : String) :
    List RecourseEvent :=
  l.recourses.filter (fun r => r.promise_id == promise_id)

/-- Source `self._email_entries.get(message_id)` (`ledger.py`). -/
def Ledger.get_email_entry (l : Ledger) (message_id : String) :
    Option EmailLedgerEntry :=
  l.email_entries.find? (fun e => e.message_id == message_id)

/-- Python `dict.get(key, default)` on a string-keyed map of rationals,
the map being modelled as an association list with distinct keys. -/
def dictGet (m : List (String × ℚ)) (key : String) (default : ℚ) : ℚ :=
  match m.find? (fun kv => kv.1 == key) with
  | some kv => kv.2
  | none => default

/-- Parameters for PDR calculation (`metrics.py`, `PDRCalculation`), with the
source's default field values. -/
structure PDRCalculation where
  decay_curve : String := "exponential"
  decay_period_days : ℚ := 90
  impact_weights : List (String × ℚ) :=
    [("critical", 1), ("high", 4/5), ("medium", 1/2), ("low", 1/5)]
  recourse_weight_factor : ℚ := 1/2

/-- The default `PDRCalculation()` used when none is supplied. -/
def defaultPDRParams : PDRCalculation := {}

/-- The promises considered by `compute_pdr` (`metrics.py` lines 195-198):
promises of the agent whose timestamp lies in `[start_time, end_time]`. -/
def promisesInWindow (l : Ledger) (agent_id : String) (start_time end_time : ℚ) :
    List PromiseEvent :=
  l.promises.filter (fun p =>
    p.agent_id == agent_id
      && decide (start_time ≤ p.timestamp) && decide (p.timestamp ≤ end_time))

/-- The dependency events considered by `compute_dependency_impact`
(`metrics.py` lines 329-332). -/
def dependenciesInWindow (l : Ledger) (start_time end_time : ℚ) :
    List DependencyEvent :=
  l.dependencies.filter (fun d =>
    decide (start_time ≤ d.timestamp) && decide (d.timestamp ≤ end_time))

/-- Source `compute_dependency_impact` (`metrics.py` lines 307-360).  The source
computes with floats; every operation here is a field operation, so the
result is modelled exactly in `ℚ`. -/
def compute_dependency_impact (l : Ledger) (start_time end_time : ℚ) : ℚ :=
  let dependencies := dependenciesInWindow l start_time end_time
  if dependencies = [] then 0
  else
    let total_impact :=
      (dependencies.map
        (fun d => d.workflow_weight * d.failure_rate * (1 - d.fallback_score))).sum
    let total_weight := (dependencies.map (fun d => d.workflow_weight)).sum
    if total_weight = 0 then 0
    else max 0 (min 1 (total_impact / total_weight))

/-- The memory distortion events considered by
`compute_memory_distortion_rate` (`metrics.py` lines 381-384). -/
def distortionsInWindow (l : Ledger) (start_time end_time : ℚ) :
    List MemoryDistortionEvent :=
  l.memory_distortions.filter (fun d =>
    decide (start_time ≤ d.timestamp) && decide (d.timestamp ≤ end_time))

/-- Source `compute_memory_distortion_rate` (`metrics.py` lines 362-419), returning
the pair (MDR, recovery score). -/
def compute_memory_distortion_rate (l : Ledger) (start_time end_time : ℚ) :
    ℚ × ℚ :=
  let distortions := distortionsInWindow l start_time end_time
  if distortions = [] then (0, 0)
  else
    let total_interactions : ℕ :=
      let n := (l.promises.filter (fun p =>
        decide (start_time ≤ p.timestamp) && decide (p.timestamp ≤ end_time))).length
      if n = 0 then distortions.length else n
    let false_memory_count : ℕ := distortions.length
    let corrected_count : ℕ :=
      (distortions.filter (fun d =>
        d.correction_status == .corrected
          || d.correction_status == .partially_corrected)).length
    let mdr : ℚ := (false_memory_count : ℚ) / (total_interactions : ℚ)
    let recovery : ℚ :=
      if false_memory_count = 0 then 1
      else (corrected_count : ℚ) / (false_memory_count : ℚ)
    (max 0 (min 1 mdr), max 0 (min 1 recovery))

/-- Python `str.split(sep)` for a single-character separator, on the
character list of the string (`"".split('.') == [""]`, separators at the
ends produce empty fields, exactly as in Python). -/
def splitOnChar (sep : Char) : List Char → List (List Char)
  | [] => [[]]
  | c :: cs =>
    let rest := splitOnChar sep cs
    if c = sep then [] :: rest
    else
      match rest with
      | [] => [[c]]
      | w :: ws => (c :: w) :: ws

/-- Python `str.rstrip()` (whitespace from the right). -/
def rstripChars (l : List Char) : List Char :=
  (l.reverse.dropWhile Char.isWhitespace).reverse

/-- Python `str.strip()` (whitespace from both ends). -/
def stripChars (l : List Char) : List Char :=
  rstripChars (l.dropWhile Char.isWhitespace)

/-- Source `EmailLedgerEntry._canonicalize_body` (`ledger.py` lines 148-158):
strip the body, split into lines, strip each line's trailing whitespace,
rejoin with newlines. -/
def canonicalize_body (body : String) : String :=
  let lines := splitOnChar '\n' (stripChars body.data)
  ⟨List.intercalate ['\n'] (lines.map rstripChars)⟩

/-- Source `EmailLedgerEntry._canonicalize_headers` (`ledger.py` lines 160-169):
sort the header items, lowercase and trim the keys, trim the values, join
as `key:value` lines.  The Python dict is modelled as an association list
with distinct keys, so sorting by key models `sorted(headers.items())`. -/
def canonicalize_headers (headers : List (String × String)) : String :=
  let sorted_headers :=
    List.insertionSort (fun a b : String × String => a.1 ≤ b.1) headers
  ⟨List.intercalate ['\n'] (sorted_headers.map (fun kv =>
    (stripChars (kv.1.data.map Char.toLower)) ++ [':'] ++ stripChars kv.2.data))⟩

/-- Source `EmailLedgerEntry.create` (`ledger.py` lines 88-146).  Here `sha256_hex` is
the SHA-256 hex digest, treated as an abstract function of the hashed
string.  The Python `if in_reply_to and in_reply_to not in references`
guard treats the empty string as falsy, hence the `r ≠ ""` test. -/
def EmailLedgerEntry.create (sha256_hex : String → String)
    (message_id from_addr to_addr : String) (timestamp : ℚ) (signer : String)
    (body : String) (headers : List (String × String))
    (in_reply_to : Option String := none)
    (references : Option (List String) := none) : EmailLedgerEntry :=
  let body_hash := sha256_hex (canonicalize_body body)
  let headers_hash := sha256_hex (canonicalize_headers headers)
  let refs0 := references.getD []
  let refs :=
    match in_reply_to with
    | some r => if r ≠ "" ∧ r ∉ refs0 then r :: refs0 else refs0
    | none => refs0
  { message_id := message_id
    from_addr := from_addr
    to_addr := to_addr
    timestamp := timestamp
    signer := signer
    body_hash := body_hash
    headers_hash := headers_hash
    in_reply_to := in_reply_to
    references := refs
    signature_chain := [] }

/-- Source `MetricsCalculator._calculate_decay` (`metrics.py` lines 271-305).
Ages are rational (they arise as differences of rational timestamps divided
by 86400); the returned weight is real because of `exp`/`log`. -/
noncomputable def calculate_decay (params : PDRCalculation) (age_days : ℚ) : ℝ :=
  let max_age : ℚ := params.decay_period_days
  if age_days ≥ max_age then 0
  else if params.decay_curve = "linear" then
    1 - (age_days : ℝ) / (max_age : ℝ)
  else if params.decay_curve = "exponential" then
    Real.exp (-Real.log 2 * (age_days : ℝ) / ((max_age : ℝ) / 2))
  else if params.decay_curve = "logarithmic" then
    if age_days = 0 then 1
    else 1 - Real.log (1 + (age_days : ℝ)) / Real.log (1 + (max_age : ℝ))
  else
    max 0 (1 - (age_days : ℝ) / (max_age : ℝ))

/-- Promise age in days as computed in `compute_pdr` (`metrics.py` line 217):
`(end_time - promise.timestamp).total_seconds() / 86400`. -/
def ageDays (end_time : ℚ) (p : PromiseEvent) : ℚ :=
  (end_time - p.timestamp) / 86400

/-- Impact weight of a promise (`metrics.py` lines 212-214): the configured
weight of its tier, defaulting to 0.5 for an unknown tier. -/
def impactWeight (params : PDRCalculation) (p : PromiseEvent) : ℚ :=
  dictGet params.impact_weights p.impact_tier.value (1/2)

/-- Python `max(deliveries, key=lambda d: d.timestamp)`: the first delivery
with maximal timestamp (`max` replaces the running maximum only on a
strictly greater key). -/
def latestDelivery : List DeliveryEvent → Option DeliveryEvent
  | [] => none
  | d :: ds =>
    some (ds.foldl (fun acc x => if acc.timestamp < x.timestamp then x else acc) d)

/-- Outcome score of a promise (`metrics.py` lines 224-239): 0 when there is
no delivery, else 1 / 0.5 / 0 by the latest delivery's outcome. -/
def outcomeScoreOf (deliveries : List DeliveryEvent) : ℚ :=
  match latestDelivery deliveries with
  | none => 0
  | some d =>
    match d.outcome with
    | .delivered => 1
    | .partial_delivery => 1/2
    | .failed => 0

/-- The outcome score `compute_pdr` assigns to a promise, looking up all
deliveries referencing the promise id. -/
def promiseOutcomeScore (l : Ledger) (p : PromiseEvent) : ℚ :=
  outcomeScoreOf (l.get_deliveries_for_promise p.id)

/-- The recourse weight `compute_pdr` assigns to a promise (`metrics.py`
lines 241-247): the configured factor when any recourse event references the
promise id, else 0. -/
def promiseRecourseWeight (l : Ledger) (params : PDRCalculation)
    (p : PromiseEvent) : ℚ :=
  if l.get_recourses_for_promise p.id = [] then 0
  else params.recourse_weight_factor

/-- Per-promise weighted score (`metrics.py` lines 249-255):
`outcome_score * decay * impact_weight * (1 - recourse_weight * (1 - outcome_score))`. -/
noncomputable def promiseWeightedScore (l : Ledger) (params : PDRCalculation)
    (end_time : ℚ) (p : PromiseEvent) : ℝ :=
  (promiseOutcomeScore l p : ℝ)
    * calculate_decay params (ageDays end_time p)
    * (impactWeight params p : ℝ)
    * (1 - (promiseRecourseWeight l params p : ℝ) * (1 - (promiseOutcomeScore l p : ℝ)))

/-- Per-promise normalizer contribution (`metrics.py` line 257):
`impact_weight * decay`. -/
noncomputable def promiseNormWeight (params : PDRCalculation) (end_time : ℚ)
    (p : PromiseEvent) : ℝ :=
  (impactWeight params p : ℝ) * calculate_decay params (ageDays end_time p)

open Classical in
/-- Source `MetricsCalculator.compute_pdr` (`metrics.py` lines 174-269).  The
`PDRBreakdown` statistics the source accumulates alongside do not affect the
returned value and are not modelled. -/
noncomputable def compute_pdr (l : Ledger) (params : PDRCalculation)
    (agent_id : String) (start_time end_time : ℚ) : ℝ :=
  let promises := promisesInWindow l agent_id start_time end_time
  if promises = [] then 0
  else
    let total_weight : ℝ := (promises.map (promiseNormWeight params end_time)).sum
    let delivered_weight : ℝ :=
      (promises.map (promiseWeightedScore l params end_time)).sum
    if total_weight = 0 then 0
    else max 0 (min 1 (delivered_weight / total_weight))

/-- One step of the `get_email_chain` loop (`ledger.py` lines 570-575): the
next `current`, which is absent when the loop stops because `in_reply_to` is
falsy (None or the empty string) or the referenced parent is missing. -/
def parentEntry (l : Ledger) (e : EmailLedgerEntry) : Option EmailLedgerEntry :=
  match e.in_reply_to with
  | none => none
  | some pid => if pid = "" then none else l.get_email_entry pid

/-- The `while current:` loop of `get_email_chain`, with explicit fuel: the
source loop has no cycle guard, so a run that has not finished within `fuel`
iterations is reported as `none` (potential divergence). -/
def chainWalk (l : Ledger) : ℕ → EmailLedgerEntry → Option (List EmailLedgerEntry)
  | 0, _ => none
  | fuel + 1, cur =>
    match parentEntry l cur with
    | none => some [cur]
    | some parent => (chainWalk l fuel parent).map (fun c => c ++ [cur])

/-- Source `Ledger.get_email_chain` (`ledger.py` lines 561-577), with explicit
fuel: `some chain` when the loop finishes within `fuel` iterations,
`none` otherwise. -/
def Ledger.get_email_chainF (l : Ledger) (fuel : ℕ) (message_id : String) :
    Option (List EmailLedgerEntry) :=
  match l.get_email_entry message_id with
  | none => some []
  | some e => chainWalk l fuel e

/-- Signer-domain extraction in `compute_chain_score` (`metrics.py` lines
457-462): the last two dot-separated components of `signer`, or the whole
string when there are fewer than two. -/
def signerDomain (signer : String) : String :=
  let parts := splitOnChar '.' signer.data
  if parts.length ≥ 2 then
    ⟨List.intercalate ['.'] (parts.drop (parts.length - 2))⟩
  else signer

/-- Signer reliability lookup (`metrics.py` line 467): map lookup with
default 0.5 for unknown domains. -/
def signerReliability (m : List (String × ℚ)) (e : EmailLedgerEntry) : ℚ :=
  dictGet m (signerDomain e.signer) (1/2)

/-- The `total_score` accumulation of `compute_chain_score` (`metrics.py`
lines 456-473), with the running 0-based depth made explicit:
each entry contributes `reliability * exp(-depth / 2)`. -/
noncomputable def chainTotalScoreAux (m : List (String × ℚ)) :
    ℕ → List EmailLedgerEntry → ℝ
  | _, [] => 0
  | depth, e :: rest =>
    (signerReliability m e : ℝ) * Real.exp (-(depth : ℝ) / 2)
      + chainTotalScoreAux m (depth + 1) rest

/-- The `total_score` over a whole chain, starting at depth 0. -/
noncomputable def chainTotalScore (m : List (String × ℚ))
    (chain : List EmailLedgerEntry) : ℝ :=
  chainTotalScoreAux m 0 chain

/-- Number of distinct signer domains in the chain (`metrics.py`: the
`distinct_signers` set). -/
def distinctSignerCount (chain : List EmailLedgerEntry) : ℕ :=
  ((chain.map (fun e => signerDomain e.signer)).dedup).length

/-- Number of chain breaks (`metrics.py` lines 475-477): entries with an
empty `signature_chain`. -/
def chainBreakCount (chain : List EmailLedgerEntry) : ℕ :=
  (chain.filter (fun e => e.signature_chain.isEmpty)).length

/-- The scoring part of `compute_chain_score` (`metrics.py` lines 444-493)
applied to an already retrieved chain: empty chain scores 0, otherwise
`(total_score + chain_bonus - break_penalty) / length`, clamped to [0,1]. -/
noncomputable def chainScoreOfChain (m : List (String × ℚ))
    (chain : List EmailLedgerEntry) : ℝ :=
  if chain = [] then 0
  else
    let total_score := chainTotalScore m chain
    let chain_bonus : ℝ := min (1/5) ((distinctSignerCount chain : ℝ) * (1/20))
    let break_penalty : ℝ := min (1/2) ((chainBreakCount chain : ℝ) * (1/5))
    let final_score := (total_score + chain_bonus - break_penalty) / (chain.length : ℝ)
    max 0 (min 1 final_score)

/-- Source `MetricsCalculator.compute_chain_score` (`metrics.py` lines 421-493):
retrieve the chain (with fuel, see `Ledger.get_email_chainF`) and score it;
`none` models a chain walk that does not finish within `fuel` iterations.
An omitted `signer_reliability_map` is the empty map. -/
noncomputable def compute_chain_score (l : Ledger) (fuel : ℕ)
    (message_id : String) (m : List (String × ℚ)) : Option ℝ :=
  (l.get_email_chainF fuel message_id).map (chainScoreOfChain m)

/-- A ledger holding a single memory distortion event at timestamp 1000,
so that the query window [0, 10] contains no distortion event. -/
def mdrLedger : Ledger :=
  { memory_distortions :=
      [{ id := "mem-1", session_id := "s1", distortion_type := .hallucination,
         correction_status := .uncorrected, timestamp := 1000 }] }

/-- A delivered promise whose age at the window end equals the full decay
period of 90 days (window [0 s, 7776000 s]). -/
def pdrOldPromise : PromiseEvent :=
  { id := "p1", agent_id := "a", promise_text := "t",
    impact_tier := .critical, timestamp := 0 }

/-- The delivered delivery of `pdrOldPromise`. -/
def pdrOldDelivery : DeliveryEvent :=
  { id := "d1", promise_id := "p1", outcome := .delivered, timestamp := 0 }

/-- Ledger with the 90-day-old promise and its delivered delivery. -/
def pdrOldLedger : Ledger :=
  { promises := [pdrOldPromise], deliveries := [pdrOldDelivery] }

/-- A fresh (one-day-old) delivered promise used as the C4 witness. -/
def pdrFreshPromise : PromiseEvent :=
  { id := "p1", agent_id := "a", promise_text := "t",
    impact_tier := .low, timestamp := 0 }

/-- The delivered delivery of `pdrFreshPromise`. -/
def pdrFreshDelivery : DeliveryEvent :=
  { id := "d1", promise_id := "p1", outcome := .delivered, timestamp := 3600 }

/-- Ledger with the fresh delivered promise (window [0 s, 86400 s]). -/
def pdrFreshLedger : Ledger :=
  { promises := [pdrFreshPromise], deliveries := [pdrFreshDelivery] }

/-- A failed promise (failed delivery) used for C3 (window [0 s, 86400 s]). -/
def failedPromise : PromiseEvent :=
  { id := "p1", agent_id := "a", promise_text := "t",
    impact_tier := .high, timestamp := 0 }

/-- The failed delivery of `failedPromise`. -/
def failedDelivery : DeliveryEvent :=
  { id := "d1", promise_id := "p1", outcome := .failed, timestamp := 3600 }

/-- A recourse event for `failedPromise` (the scenario of the unit test
`test_calculate_pdr_with_recourse`). -/
def failedRecourse : RecourseEvent :=
  { id := "r1", promise_id := "p1", action := "repair",
    resolution := "partially_resolved", timestamp := 7200 }

/-- Ledger with the failed promise and no recourse. -/
def ledgerNoRecourse : Ledger :=
  { promises := [failedPromise], deliveries := [failedDelivery] }

/-- Ledger with the failed promise and one recourse event. -/
def ledgerWithRecourse : Ledger :=
  { promises := [failedPromise], deliveries := [failedDelivery],
    recourses := [failedRecourse] }

/-- A delivered promise whose only delivery is timestamped outside the query
window [0 s, 86400 s] (at 172800 s = 2 days). -/
def outWindowPromise : PromiseEvent :=
  { id := "p1", agent_id := "a", promise_text := "t",
    impact_tier := .critical, timestamp := 0 }

/-- The delivered delivery, timestamped outside the window. -/
def outWindowDelivery : DeliveryEvent :=
  { id := "d1", promise_id := "p1", outcome := .delivered, timestamp := 172800 }

/-- Ledger whose delivery lies outside the query window. -/
def outWindowLedger : Ledger :=
  { promises := [outWindowPromise], deliveries := [outWindowDelivery] }

/-- The single chain entry used in the C8 witness. -/
def chainEntryW : EmailLedgerEntry :=
  { message_id := "m1", from_addr := "a@example.com", to_addr := "b@y.com",
    timestamp := 0, signer := "sel1.example.com", body_hash := "h",
    headers_hash := "h", in_reply_to := none, references := [],
    signature_chain := ["sig"] }

/-- One-entry ledger for the C8 witness. -/
def chainLedgerW : Ledger := { email_entries := [chainEntryW] }

/-- Iterating the loop step `parentEntry` a given number of times:
`some v` when the walk is at entry `v` after exactly n steps, `none` when it
stopped earlier. -/
def parentIterN (l : Ledger) : ℕ → EmailLedgerEntry → Option EmailLedgerEntry
  | 0, e => some e
  | n + 1, e => (parentEntry l e).bind (parentIterN l n)

/-- The `in_reply_to` reference graph of the stored entries is acyclic: no
stored entry returns to itself by following the walk step a positive number
of times. -/
def Ledger.ThreadAcyclic (l : Ledger) : Prop :=
  ∀ e ∈ l.email_entries, ∀ n : ℕ, 0 < n → parentIterN l n e ≠ some e

/-- Relation `ChainLink l a b`: the backward walk moves from entry `b` to its found
parent `a`. -/
def ChainLink (l : Ledger) (a b : EmailLedgerEntry) : Prop :=
  parentEntry l b = some a

/-- Root-first characterization of a finished backward walk from `e`: the
returned list is non-empty, ends with `e`, every consecutive pair is linked
by the walk step, and the walk stopped at the head (no truthy `in_reply_to`
resolving to a stored parent). -/
def ChainInv (l : Ledger) (e : EmailLedgerEntry)
    (c : List EmailLedgerEntry) : Prop :=
  c ≠ [] ∧ c.getLast? = some e ∧ List.Chain' (ChainLink l) c ∧
    ∀ h ∈ c.head?, parentEntry l h = none

/-- Root entry of the concrete two-message thread (C6 witness). -/
def threadEntryRoot : EmailLedgerEntry :=
  { message_id := "m1", from_addr := "a@x.com", to_addr := "b@y.com",
    timestamp := 0, signer := "s.x.com", body_hash := "h",
    headers_hash := "h", in_reply_to := none, references := [],
    signature_chain := [] }

/-- Reply entry of the concrete two-message thread (C6 witness). -/
def threadEntryReply : EmailLedgerEntry :=
  { message_id := "m2", from_addr := "b@y.com", to_addr := "a@x.com",
    timestamp := 10, signer := "s.y.com", body_hash := "h",
    headers_hash := "h", in_reply_to := some "m1", references := ["m1"],
    signature_chain := [] }

/-- Two-entry acyclic thread ledger (C6 witness). -/
def threadLedgerW : Ledger :=
  { email_entries := [threadEntryRoot, threadEntryReply] }

lemma clamp01_mem {α : Type*} [LinearOrder α] [Zero α] [One α]
    (h01 : (0:α) ≤ 1) (x : α) : max 0 (min 1 x) ∈ Set.Icc (0:α) 1 :=
  ⟨le_max_left _ _, max_le h01 (min_le_left _ _)⟩

lemma compute_pdr_mem_Icc (l : Ledger) (params : PDRCalculation)
    (agent_id : String) (start_time end_time : ℚ) :
    compute_pdr l params agent_id start_time end_time ∈ Set.Icc (0:ℝ) 1 := by
  unfold compute_pdr
  dsimp only
  split
  · exact ⟨le_rfl, zero_le_one⟩
  · split
    · exact ⟨le_rfl, zero_le_one⟩
    · exact clamp01_mem zero_le_one _

lemma compute_dependency_impact_mem_Icc (l : Ledger) (start_time end_time : ℚ) :
    compute_dependency_impact l start_time end_time ∈ Set.Icc (0:ℚ) 1 := by
  unfold compute_dependency_impact
  dsimp only
  split
  · exact ⟨le_rfl, zero_le_one⟩
  · split
    · exact ⟨le_rfl, zero_le_one⟩
    · exact clamp01_mem zero_le_one _

lemma compute_mdr_mem_Icc (l : Ledger) (start_time end_time : ℚ) :
    (compute_memory_distortion_rate l start_time end_time).1 ∈ Set.Icc (0:ℚ) 1 ∧
      (compute_memory_distortion_rate l start_time end_time).2 ∈ Set.Icc (0:ℚ) 1 := by
  unfold compute_memory_distortion_rate
  dsimp only
  split
  · exact ⟨⟨le_rfl, zero_le_one⟩, ⟨le_rfl, zero_le_one⟩⟩
  · exact ⟨clamp01_mem zero_le_one _, clamp01_mem zero_le_one _⟩

lemma chainScoreOfChain_mem_Icc (m : List (String × ℚ))
    (chain : List EmailLedgerEntry) :
    chainScoreOfChain m chain ∈ Set.Icc (0:ℝ) 1 := by
  unfold chainScoreOfChain
  dsimp only
  split
  · exact ⟨le_rfl, zero_le_one⟩
  · exact clamp01_mem zero_le_one _

/-- C1.  For every ledger, parameters, agent id and time window,
`compute_pdr`, `compute_dependency_impact`, both components of
`compute_memory_distortion_rate`, and every value returned by
`compute_chain_score` lie in the closed interval [0, 1]. -/
theorem metrics_results_bounded (l : Ledger) (params : PDRCalculation)
    (agent_id : String) (start_time end_time : ℚ) (fuel : ℕ) (mid : String)
    (m : List (String × ℚ)) :
    compute_pdr l params agent_id start_time end_time ∈ Set.Icc (0:ℝ) 1 ∧
    compute_dependency_impact l start_time end_time ∈ Set.Icc (0:ℚ) 1 ∧
    (compute_memory_distortion_rate l start_time end_time).1 ∈ Set.Icc (0:ℚ) 1 ∧
    (compute_memory_distortion_rate l start_time end_time).2 ∈ Set.Icc (0:ℚ) 1 ∧
    (∀ x : ℝ, compute_chain_score l fuel mid m = some x → x ∈ Set.Icc (0:ℝ) 1) := by
  refine ⟨compute_pdr_mem_Icc l params agent_id start_time end_time,
    compute_dependency_impact_mem_Icc l start_time end_time,
    (compute_mdr_mem_Icc l start_time end_time).1,
    (compute_mdr_mem_Icc l start_time end_time).2, ?_⟩
  intro x hx
  simp only [compute_chain_score, Option.map_eq_some'] at hx
  obtain ⟨c, _, rfl⟩ := hx
  exact chainScoreOfChain_mem_Icc m c

/-- Witness for C1: the bounds instantiated at the empty ledger, where the
chain score is `some 0`. -/
theorem metrics_results_bounded_witness :
    compute_chain_score {} 1 "m" [] = some (chainScoreOfChain [] []) ∧
      chainScoreOfChain [] [] ∈ Set.Icc (0:ℝ) 1 := by
  have hsome : compute_chain_score ({} : Ledger) 1 "m" [] =
      some (chainScoreOfChain [] []) := by
    simp [compute_chain_score, Ledger.get_email_chainF, Ledger.get_email_entry]
  exact ⟨hsome,
    (metrics_results_bounded {} defaultPDRParams "a" 0 1 1 "m" []).2.2.2.2 _ hsome⟩

/-- Counterexample to C5: a ledger with no MemoryDistortion event in the
queried range, on which `compute_memory_distortion_rate` returns (0, 0) —
the recovery score is 0.0, not the claimed 1.0. -/
theorem mdr_no_distortions_counterexample :
    distortionsInWindow mdrLedger 0 10 = [] ∧
    compute_memory_distortion_rate mdrLedger 0 10 = (0, 0) ∧
    (compute_memory_distortion_rate mdrLedger 0 10).2 ≠ 1 := by
  refine ⟨by decide, by decide, by decide⟩

/-- C5 (amended).  When there are no MemoryDistortion events in the queried
time range, `compute_memory_distortion_rate` returns (0.0, 0.0): the
recovery score is 0.0 (the `false_memory_count == 0` branch that would
return 1.0 is unreachable behind the early return). -/
theorem mdr_empty_range_returns_zero (l : Ledger) (start_time end_time : ℚ)
    (h : distortionsInWindow l start_time end_time = []) :
    compute_memory_distortion_rate l start_time end_time = (0, 0) := by
  unfold compute_memory_distortion_rate
  simp only [h]
  simp

/-- Witness for C5's amended theorem at the concrete ledger. -/
theorem mdr_empty_range_returns_zero_witness :
    distortionsInWindow mdrLedger 0 10 = [] ∧
      compute_memory_distortion_rate mdrLedger 0 10 = (0, 0) :=
  ⟨by decide, mdr_empty_range_returns_zero mdrLedger 0 10 (by decide)⟩

/-- Counterexample to C7: when `in_reply_to` is already a non-head member of
the passed `references` list, `create` leaves the list unchanged, so
`in_reply_to` is not its first element; and when `in_reply_to` is the empty
string (non-null but falsy in Python), it is not inserted at all. -/
theorem create_references_counterexample :
    (EmailLedgerEntry.create (fun _ => "h") "m2" "a@x.com" "b@y.com" 0
        "sel.x.com" "body" [] (some "r") (some ["a", "r"])).references
        = ["a", "r"] ∧
    (["a", "r"] : List String).head? ≠ some "r" ∧
    (EmailLedgerEntry.create (fun _ => "h") "m3" "a@x.com" "b@y.com" 0
        "sel.x.com" "body" [] (some "") none).references = [] := by
  refine ⟨by decide, by decide, by decide⟩

/-- C7 (amended).  For `create` with `in_reply_to = some r`, universally in
the hash function, the other fields, `r` and the passed references list:
when `r` is non-empty and not already a member, the returned references list
is `r` prepended to it, so `r` is its first element; when `r` is already a
member, the list is returned unchanged (so `r` is a member but not
necessarily first); when `r` is the empty string (non-null but falsy in
Python) it is never inserted, both for a passed list and for an omitted
one. -/
theorem create_references_inserts_reply (sha256_hex : String → String)
    (message_id from_addr to_addr : String) (timestamp : ℚ)
    (signer body : String) (headers : List (String × String))
    (r : String) (refs : List String) :
    (r ≠ "" → r ∉ refs →
      (EmailLedgerEntry.create sha256_hex message_id from_addr to_addr
        timestamp signer body headers (some r) (some refs)).references
        = r :: refs) ∧
    (r ∈ refs →
      (EmailLedgerEntry.create sha256_hex message_id from_addr to_addr
        timestamp signer body headers (some r) (some refs)).references
        = refs) ∧
    (r = "" →
      (EmailLedgerEntry.create sha256_hex message_id from_addr to_addr
        timestamp signer body headers (some r) (some refs)).references
        = refs) ∧
    (r ≠ "" →
      r ∈ (EmailLedgerEntry.create sha256_hex message_id from_addr to_addr
        timestamp signer body headers (some r) (some refs)).references) ∧
    (r = "" →
      (EmailLedgerEntry.create sha256_hex message_id from_addr to_addr
        timestamp signer body headers (some r) none).references = []) := by
  unfold EmailLedgerEntry.create
  dsimp only
  refine ⟨fun hr hm => ?_, fun hm => ?_, fun hr => ?_, fun hr => ?_,
    fun hr => ?_⟩
  · simp [hr, hm]
  · simp [hm]
  · simp [hr]
  · by_cases hm : r ∈ refs
    · simp [hm]
    · simp [hr, hm]
  · simp [hr]

/-- Witness for C7's amended theorem: the prepend case, the already-member
case, and the empty-string cases, each at concrete arguments. -/
theorem create_references_inserts_reply_witness :
    ("r" : String) ≠ "" ∧ ("r" : String) ∉ (["a"] : List String) ∧
    (EmailLedgerEntry.create (fun _ => "h") "m2" "a@x.com" "b@y.com" 0
      "sel.x.com" "body" [] (some "r") (some ["a"])).references
      = "r" :: ["a"] ∧
    ("r" : String) ∈ (["a", "r"] : List String) ∧
    (EmailLedgerEntry.create (fun _ => "h") "m2" "a@x.com" "b@y.com" 0
      "sel.x.com" "body" [] (some "r") (some ["a", "r"])).references
      = ["a", "r"] ∧
    (EmailLedgerEntry.create (fun _ => "h") "m2" "a@x.com" "b@y.com" 0
      "sel.x.com" "body" [] (some "") (some ["a"])).references = ["a"] ∧
    (EmailLedgerEntry.create (fun _ => "h") "m2" "a@x.com" "b@y.com" 0
      "sel.x.com" "body" [] (some "") none).references = [] :=
  ⟨by decide, by decide,
    (create_references_inserts_reply (fun _ => "h") "m2" "a@x.com" "b@y.com" 0
      "sel.x.com" "body" [] "r" ["a"]).1 (by decide) (by decide),
    by decide,
    (create_references_inserts_reply (fun _ => "h") "m2" "a@x.com" "b@y.com" 0
      "sel.x.com" "body" [] "r" ["a", "r"]).2.1 (by decide),
    (create_references_inserts_reply (fun _ => "h") "m2" "a@x.com" "b@y.com" 0
      "sel.x.com" "body" [] "" ["a"]).2.2.1 rfl,
    (create_references_inserts_reply (fun _ => "h") "m2" "a@x.com" "b@y.com" 0
      "sel.x.com" "body" [] "" ["a"]).2.2.2.2 rfl⟩

lemma chainBreakCount_eq_length (chain : List EmailLedgerEntry)
    (h : ∀ e ∈ chain, e.signature_chain = []) :
    chainBreakCount chain = chain.length := by
  unfold chainBreakCount
  rw [List.filter_eq_self.mpr]
  intro e he
  simp [h e he]

/-- C10.  Every entry returned by `EmailLedgerEntry.create` has an empty
`signature_chain`; consequently, on a chain all of whose entries have empty
signature chains, `compute_chain_score` counts every entry as a chain break
and applies the break penalty `min(0.5, 0.2 × chainLength)`. -/
theorem create_empty_signature_chain_break_penalty :
    (∀ (sha256_hex : String → String) (message_id from_addr to_addr : String)
      (timestamp : ℚ) (signer body : String) (headers : List (String × String))
      (in_reply_to : Option String) (references : Option (List String)),
      (EmailLedgerEntry.create sha256_hex message_id from_addr to_addr
        timestamp signer body headers in_reply_to references).signature_chain
        = []) ∧
    (∀ (l : Ledger) (fuel : ℕ) (mid : String) (m : List (String × ℚ))
      (chain : List EmailLedgerEntry),
      l.get_email_chainF fuel mid = some chain →
      (∀ e ∈ chain, e.signature_chain = []) →
      compute_chain_score l fuel mid m =
        some (if chain = [] then 0 else
          max 0 (min 1 ((chainTotalScore m chain
            + min (1/5) ((distinctSignerCount chain : ℝ) * (1/20))
            - min (1/2) ((chain.length : ℝ) * (1/5))) / (chain.length : ℝ))))) := by
  constructor
  · intro sha256_hex message_id from_addr to_addr timestamp signer body headers
      in_reply_to references
    rfl
  · intro l fuel mid m chain hchain hempty
    simp only [compute_chain_score, hchain, Option.map_some']
    congr 1
    unfold chainScoreOfChain
    rw [chainBreakCount_eq_length chain hempty]

/-- Witness for C10 at a concrete one-entry ledger whose entry was produced
by `create`. -/
theorem create_empty_signature_chain_break_penalty_witness :
    (EmailLedgerEntry.create (fun _ => "h") "m1" "a@x.com" "b@y.com" 0
      "sel.x.com" "hello" [] none none).signature_chain = [] ∧
    ({ email_entries := [EmailLedgerEntry.create (fun _ => "h") "m1" "a@x.com"
        "b@y.com" 0 "sel.x.com" "hello" [] none none] } : Ledger).get_email_chainF
        2 "m1" = some [EmailLedgerEntry.create (fun _ => "h") "m1" "a@x.com"
        "b@y.com" 0 "sel.x.com" "hello" [] none none] ∧
    compute_chain_score ({ email_entries := [EmailLedgerEntry.create
        (fun _ => "h") "m1" "a@x.com" "b@y.com" 0 "sel.x.com" "hello" [] none
        none] } : Ledger) 2 "m1" [] =
      some (if ([EmailLedgerEntry.create (fun _ => "h") "m1" "a@x.com"
          "b@y.com" 0 "sel.x.com" "hello" [] none none] :
          List EmailLedgerEntry) = [] then 0 else
        max 0 (min 1 ((chainTotalScore [] [EmailLedgerEntry.create
            (fun _ => "h") "m1" "a@x.com" "b@y.com" 0 "sel.x.com" "hello" []
            none none]
          + min (1/5) ((distinctSignerCount [EmailLedgerEntry.create
            (fun _ => "h") "m1" "a@x.com" "b@y.com" 0 "sel.x.com" "hello" []
            none none] : ℝ) * (1/20))
          - min (1/2) ((([EmailLedgerEntry.create (fun _ => "h") "m1"
            "a@x.com" "b@y.com" 0 "sel.x.com" "hello" [] none none] :
            List EmailLedgerEntry).length : ℝ) * (1/5)))
          / (([EmailLedgerEntry.create (fun _ => "h") "m1" "a@x.com" "b@y.com"
            0 "sel.x.com" "hello" [] none none] :
            List EmailLedgerEntry).length : ℝ)))) :=
  ⟨(create_empty_signature_chain_break_penalty).1 (fun _ => "h") "m1" "a@x.com"
      "b@y.com" 0 "sel.x.com" "hello" [] none none,
    by decide,
    (create_empty_signature_chain_break_penalty).2 _ 2 "m1" [] _ (by decide)
      (by decide)⟩

lemma calculate_decay_zero_of_ge (params : PDRCalculation) (a : ℚ)
    (h : params.decay_period_days ≤ a) : calculate_decay params a = 0 := by
  unfold calculate_decay
  simp only [ge_iff_le, h, if_true]

lemma calculate_decay_nonneg (params : PDRCalculation) (a : ℚ) (h0 : 0 ≤ a) :
    0 ≤ calculate_decay params a := by
  unfold calculate_decay
  dsimp only
  by_cases hge : a ≥ params.decay_period_days
  · simp [hge]
  · rw [if_neg hge]
    push_neg at hge
    have hMpos : (0:ℚ) < params.decay_period_days := lt_of_le_of_lt h0 hge
    have haR : (a:ℝ) < (params.decay_period_days : ℝ) := by exact_mod_cast hge
    have hMR : (0:ℝ) < (params.decay_period_days : ℝ) := by exact_mod_cast hMpos
    have h0R : (0:ℝ) ≤ (a:ℝ) := by exact_mod_cast h0
    split
    · have hdiv : (a:ℝ) / (params.decay_period_days : ℝ) ≤ 1 := by
        rw [div_le_one hMR]; exact haR.le
      linarith
    · split
      · exact (Real.exp_pos _).le
      · split
        · split
          · norm_num
          · have hlogM : (0:ℝ) < Real.log (1 + (params.decay_period_days : ℝ)) :=
              Real.log_pos (by linarith)
            have hloga : Real.log (1 + (a:ℝ)) ≤
                Real.log (1 + (params.decay_period_days : ℝ)) := by
              apply Real.log_le_log (by linarith)
              linarith
            have : Real.log (1 + (a:ℝ)) /
                Real.log (1 + (params.decay_period_days : ℝ)) ≤ 1 := by
              rw [div_le_one hlogM]
              exact hloga
            linarith
        · exact le_max_left _ _

lemma calculate_decay_antitone (params : PDRCalculation) (a1 a2 : ℚ)
    (h0 : 0 ≤ a1) (h12 : a1 ≤ a2) :
    calculate_decay params a2 ≤ calculate_decay params a1 := by
  by_cases hge1 : params.decay_period_days ≤ a1
  · rw [calculate_decay_zero_of_ge params a1 hge1,
      calculate_decay_zero_of_ge params a2 (le_trans hge1 h12)]
  · by_cases hge2 : params.decay_period_days ≤ a2
    · rw [calculate_decay_zero_of_ge params a2 hge2]
      exact calculate_decay_nonneg params a1 h0
    · have hlt1 : a1 < params.decay_period_days := not_le.mp hge1
      have hlt2 : a2 < params.decay_period_days := not_le.mp hge2
      have hMpos : (0:ℚ) < params.decay_period_days := lt_of_le_of_lt h0 hlt1
      have hMR : (0:ℝ) < (params.decay_period_days : ℝ) := by exact_mod_cast hMpos
      have h12R : (a1:ℝ) ≤ (a2:ℝ) := by exact_mod_cast h12
      have h0R : (0:ℝ) ≤ (a1:ℝ) := by exact_mod_cast h0
      unfold calculate_decay
      dsimp only
      rw [if_neg (not_le.mpr hlt1), if_neg (not_le.mpr hlt2)]
      split
      · have : (a1:ℝ) / (params.decay_period_days : ℝ) ≤
            (a2:ℝ) / (params.decay_period_days : ℝ) :=
          (div_le_div_right hMR).mpr h12R
        linarith
      · split
        · apply Real.exp_le_exp.mpr
          have hM2 : (0:ℝ) < (params.decay_period_days : ℝ) / 2 := by linarith
          apply (div_le_div_right hM2).mpr
          exact mul_le_mul_of_nonpos_left h12R
            (neg_nonpos.mpr (Real.log_pos (by norm_num)).le)
        · split
          · split
            · split
              · exact le_rfl
              · exfalso
                have : a1 = 0 := le_antisymm (by linarith) h0
                simp_all
            · have ha2 : (0:ℚ) < a2 := by
                rename_i h2
                rcases lt_or_eq_of_le (le_trans h0 h12) with h | h
                · exact h
                · exact absurd h.symm h2
              have ha2R : (0:ℝ) < (a2:ℝ) := by exact_mod_cast ha2
              have hlogM : (0:ℝ) < Real.log (1 + (params.decay_period_days : ℝ)) :=
                Real.log_pos (by linarith)
              split
              · have hlog2 : (0:ℝ) ≤ Real.log (1 + (a2:ℝ)) := by
                  apply Real.log_nonneg
                  linarith
                have : (0:ℝ) ≤ Real.log (1 + (a2:ℝ)) /
                    Real.log (1 + (params.decay_period_days : ℝ)) :=
                  div_nonneg hlog2 hlogM.le
                linarith
              · have hlog12 : Real.log (1 + (a1:ℝ)) ≤ Real.log (1 + (a2:ℝ)) := by
                  apply Real.log_le_log (by linarith)
                  linarith
                have : Real.log (1 + (a1:ℝ)) /
                    Real.log (1 + (params.decay_period_days : ℝ)) ≤
                    Real.log (1 + (a2:ℝ)) /
                    Real.log (1 + (params.decay_period_days : ℝ)) :=
                  (div_le_div_right hlogM).mpr hlog12
                linarith
          · apply max_le_max le_rfl
            have : (a1:ℝ) / (params.decay_period_days : ℝ) ≤
                (a2:ℝ) / (params.decay_period_days : ℝ) :=
              (div_le_div_right hMR).mpr h12R
            linarith

/-- C2.  For every decay curve name (including unrecognized ones) and every
positive decay period, the decay function is antitone in the age on
nonnegative ages, and is exactly 0 for every age at least the decay
period. -/
theorem decay_monotone_and_cutoff (params : PDRCalculation)
    (hM : 0 < params.decay_period_days) :
    (∀ a1 a2 : ℚ, 0 ≤ a1 → a1 ≤ a2 →
      calculate_decay params a2 ≤ calculate_decay params a1) ∧
    (∀ a : ℚ, params.decay_period_days ≤ a → calculate_decay params a = 0) :=
  ⟨fun a1 a2 h0 h12 => calculate_decay_antitone params a1 a2 h0 h12,
    fun a ha => calculate_decay_zero_of_ge params a ha⟩

/-- Witness for C2 at the default parameters (exponential curve, period 90)
and concrete ages. -/
theorem decay_monotone_and_cutoff_witness :
    (0:ℚ) < defaultPDRParams.decay_period_days ∧
    calculate_decay defaultPDRParams 2 ≤ calculate_decay defaultPDRParams 1 ∧
    calculate_decay defaultPDRParams 100 = 0 :=
  ⟨by decide,
    (decay_monotone_and_cutoff defaultPDRParams (by decide)).1 1 2
      (by decide) (by decide),
    (decay_monotone_and_cutoff defaultPDRParams (by decide)).2 100 (by decide)⟩

lemma default_impactWeight_pos (p : PromiseEvent) :
    0 < impactWeight defaultPDRParams p := by
  have h : impactWeight defaultPDRParams p
      = dictGet defaultPDRParams.impact_weights p.impact_tier.value (1/2) := rfl
  rw [h]
  cases p.impact_tier
  · rw [show dictGet defaultPDRParams.impact_weights
      ImpactTier.critical.value (1/2) = 1 from rfl]
    norm_num
  · rw [show dictGet defaultPDRParams.impact_weights
      ImpactTier.high.value (1/2) = 4/5 from rfl]
    norm_num
  · rw [show dictGet defaultPDRParams.impact_weights
      ImpactTier.medium.value (1/2) = 1/2 from rfl]
    norm_num
  · rw [show dictGet defaultPDRParams.impact_weights
      ImpactTier.low.value (1/2) = 1/5 from rfl]
    norm_num

lemma default_decay_pos (q : ℚ) (h : q < 90) :
    0 < calculate_decay defaultPDRParams q := by
  unfold calculate_decay
  dsimp only
  rw [if_neg (show ¬ q ≥ defaultPDRParams.decay_period_days from not_le.mpr h),
    if_neg (by decide), if_pos (by decide)]
  exact Real.exp_pos _

lemma default_decay_nonneg (q : ℚ) :
    0 ≤ calculate_decay defaultPDRParams q := by
  by_cases h : defaultPDRParams.decay_period_days ≤ q
  · rw [calculate_decay_zero_of_ge defaultPDRParams q h]
  · exact (default_decay_pos q (not_le.mp h)).le

lemma promiseNormWeight_nonneg_default (e : ℚ) (p : PromiseEvent) :
    0 ≤ promiseNormWeight defaultPDRParams e p :=
  mul_nonneg (by exact_mod_cast (default_impactWeight_pos p).le)
    (default_decay_nonneg _)

lemma promiseNormWeight_pos_default (e : ℚ) (p : PromiseEvent)
    (h : ageDays e p < 90) : 0 < promiseNormWeight defaultPDRParams e p :=
  mul_pos (by exact_mod_cast default_impactWeight_pos p) (default_decay_pos _ h)

lemma weightedScore_eq_zero_of_outcome_zero (l : Ledger)
    (params : PDRCalculation) (e : ℚ) (p : PromiseEvent)
    (h : promiseOutcomeScore l p = 0) :
    promiseWeightedScore l params e p = 0 := by
  unfold promiseWeightedScore
  rw [h]
  push_cast
  ring

lemma pdr_all_delivered_eq_one (l : Ledger) (agent_id : String) (s e : ℚ)
    (hne : promisesInWindow l agent_id s e ≠ [])
    (hdel : ∀ p ∈ promisesInWindow l agent_id s e, promiseOutcomeScore l p = 1)
    (hyoung : ∃ p ∈ promisesInWindow l agent_id s e, ageDays e p < 90) :
    compute_pdr l defaultPDRParams agent_id s e = 1 := by
  unfold compute_pdr
  dsimp only
  rw [if_neg hne]
  have hmap : (promisesInWindow l agent_id s e).map
        (promiseWeightedScore l defaultPDRParams e)
      = (promisesInWindow l agent_id s e).map
        (promiseNormWeight defaultPDRParams e) := by
    apply List.map_congr_left
    intro p hp
    unfold promiseWeightedScore promiseNormWeight
    rw [hdel p hp]
    push_cast
    ring
  rw [hmap]
  have hpos : 0 < ((promisesInWindow l agent_id s e).map
      (promiseNormWeight defaultPDRParams e)).sum := by
    obtain ⟨p, hp, hage⟩ := hyoung
    have hterm : 0 < promiseNormWeight defaultPDRParams e p :=
      promiseNormWeight_pos_default e p hage
    have hmem : promiseNormWeight defaultPDRParams e p ∈
        (promisesInWindow l agent_id s e).map
          (promiseNormWeight defaultPDRParams e) :=
      List.mem_map_of_mem _ hp
    have hnn : ∀ x ∈ (promisesInWindow l agent_id s e).map
        (promiseNormWeight defaultPDRParams e), 0 ≤ x := by
      intro x hx
      obtain ⟨q, _, rfl⟩ := List.mem_map.mp hx
      exact promiseNormWeight_nonneg_default e q
    exact lt_of_lt_of_le hterm (List.single_le_sum hnn _ hmem)
  rw [if_neg (ne_of_gt hpos), div_self (ne_of_gt hpos)]
  norm_num

/-- C4 (amended).  If every promise of the agent in the window has a latest
delivery with outcome delivered and no recourse event, and at least one of
those promises is younger than the decay period (so the normalizer is
positive), then `compute_pdr` with the default parameters returns exactly 1,
regardless of the mix of impact tiers. -/
theorem pdr_all_delivered_is_one (l : Ledger) (agent_id : String) (s e : ℚ)
    (hne : promisesInWindow l agent_id s e ≠ [])
    (hdel : ∀ p ∈ promisesInWindow l agent_id s e, promiseOutcomeScore l p = 1)
    (hnor : ∀ p ∈ promisesInWindow l agent_id s e,
      l.get_recourses_for_promise p.id = [])
    (hyoung : ∃ p ∈ promisesInWindow l agent_id s e,
      ageDays e p < defaultPDRParams.decay_period_days) :
    compute_pdr l defaultPDRParams agent_id s e = 1 :=
  pdr_all_delivered_eq_one l agent_id s e hne hdel hyoung

lemma compute_pdr_singleton (l : Ledger) (params : PDRCalculation)
    (agent_id : String) (s e : ℚ) (p : PromiseEvent)
    (hw : promisesInWindow l agent_id s e = [p]) :
    compute_pdr l params agent_id s e =
      if promiseNormWeight params e p = 0 then 0
      else max 0 (min 1 (promiseWeightedScore l params e p
        / promiseNormWeight params e p)) := by
  unfold compute_pdr
  dsimp only
  rw [hw]
  simp

/-- Counterexample to C4: a single in-window promise, delivered and without
recourse, whose age equals the decay period; its decay weight is 0, the
normalizer is 0, and `compute_pdr` returns 0, not 1. -/
theorem pdr_all_delivered_counterexample :
    promisesInWindow pdrOldLedger "a" 0 7776000 ≠ [] ∧
    (∀ p ∈ promisesInWindow pdrOldLedger "a" 0 7776000,
      promiseOutcomeScore pdrOldLedger p = 1) ∧
    (∀ p ∈ promisesInWindow pdrOldLedger "a" 0 7776000,
      pdrOldLedger.get_recourses_for_promise p.id = []) ∧
    compute_pdr pdrOldLedger defaultPDRParams "a" 0 7776000 = 0 ∧
    (0:ℝ) ≠ 1 := by
  refine ⟨by decide, by decide, by decide, ?_, by norm_num⟩
  rw [compute_pdr_singleton pdrOldLedger defaultPDRParams "a" 0 7776000
    pdrOldPromise (by decide)]
  rw [if_pos]
  unfold promiseNormWeight
  rw [calculate_decay_zero_of_ge defaultPDRParams _
    (by norm_num [ageDays, pdrOldPromise, defaultPDRParams]), mul_zero]

/-- Witness for C4's amended theorem: one fresh delivered promise. -/
theorem pdr_all_delivered_is_one_witness :
    promisesInWindow pdrFreshLedger "a" 0 86400 ≠ [] ∧
    compute_pdr pdrFreshLedger defaultPDRParams "a" 0 86400 = 1 :=
  ⟨by decide,
    pdr_all_delivered_is_one pdrFreshLedger "a" 0 86400 (by decide) (by decide)
      (by decide)
      ⟨pdrFreshPromise, by decide,
        by norm_num [ageDays, pdrFreshPromise, defaultPDRParams]⟩⟩

lemma compute_pdr_zero_of_failed_singleton (l : Ledger) (agent_id : String)
    (s e : ℚ) (p : PromiseEvent)
    (hw : promisesInWindow l agent_id s e = [p])
    (hout : promiseOutcomeScore l p = 0) (hage : ageDays e p < 90) :
    compute_pdr l defaultPDRParams agent_id s e = 0 := by
  rw [compute_pdr_singleton l defaultPDRParams agent_id s e p hw,
    if_neg (promiseNormWeight_pos_default e p hage).ne',
    weightedScore_eq_zero_of_outcome_zero l defaultPDRParams e p hout, zero_div]
  norm_num

/-- C3 (code bug, evaluated at the failing input).  For a promise whose
latest delivery failed, the per-promise weighted score is multiplied by
`outcome_score = 0`, so adding a recourse event leaves the contribution (and
the PDR) at exactly 0 instead of strictly increasing it: the recourse factor
`(1 - recourse_weight * (1 - outcome_score))` is cancelled by the leading
zero factor, contradicting the unit test `test_calculate_pdr_with_recourse`
(`assert 0.0 < pdr < 0.5`) and the in-code comment that recourse reduces
the penalty. -/
theorem recourse_has_no_effect_on_failed_promise :
    promiseOutcomeScore ledgerWithRecourse failedPromise = 0 ∧
    ledgerWithRecourse.get_recourses_for_promise failedPromise.id ≠ [] ∧
    ledgerNoRecourse.get_recourses_for_promise failedPromise.id = [] ∧
    promiseWeightedScore ledgerWithRecourse defaultPDRParams 86400 failedPromise
      = promiseWeightedScore ledgerNoRecourse defaultPDRParams 86400
        failedPromise ∧
    promiseWeightedScore ledgerWithRecourse defaultPDRParams 86400 failedPromise
      = 0 ∧
    compute_pdr ledgerWithRecourse defaultPDRParams "a" 0 86400 = 0 ∧
    compute_pdr ledgerNoRecourse defaultPDRParams "a" 0 86400 = 0 := by
  refine ⟨by decide, by decide, by decide, ?_, ?_, ?_, ?_⟩
  · rw [weightedScore_eq_zero_of_outcome_zero ledgerWithRecourse
      defaultPDRParams 86400 failedPromise (by decide),
      weightedScore_eq_zero_of_outcome_zero ledgerNoRecourse
      defaultPDRParams 86400 failedPromise (by decide)]
  · exact weightedScore_eq_zero_of_outcome_zero ledgerWithRecourse
      defaultPDRParams 86400 failedPromise (by decide)
  · exact compute_pdr_zero_of_failed_singleton ledgerWithRecourse "a" 0 86400
      failedPromise (by decide) (by decide)
      (by norm_num [ageDays, failedPromise])
  · exact compute_pdr_zero_of_failed_singleton ledgerNoRecourse "a" 0 86400
      failedPromise (by decide) (by decide)
      (by norm_num [ageDays, failedPromise])

/-- C9.  `compute_pdr` restricts only the promises to the window: replacing
the promise store by its in-window restriction (keeping all deliveries and
recourses) never changes the result; and on a concrete ledger whose only
delivery is timestamped outside the window, that delivery still determines
the promise's outcome, yielding PDR 1. -/
theorem pdr_window_restricts_only_promises :
    (∀ (l : Ledger) (params : PDRCalculation) (agent_id : String) (s e : ℚ),
      compute_pdr { l with promises := promisesInWindow l agent_id s e }
          params agent_id s e = compute_pdr l params agent_id s e) ∧
    promisesInWindow outWindowLedger "a" 0 86400 ≠ [] ∧
    (∀ d ∈ outWindowLedger.deliveries,
      ¬(0 ≤ d.timestamp ∧ d.timestamp ≤ 86400)) ∧
    outWindowLedger.deliveries ≠ [] ∧
    compute_pdr outWindowLedger defaultPDRParams "a" 0 86400 = 1 := by
  constructor
  · intro l params agent_id s e
    have hw : promisesInWindow
        { l with promises := promisesInWindow l agent_id s e } agent_id s e
        = promisesInWindow l agent_id s e := by
      unfold promisesInWindow
      dsimp only
      rw [List.filter_filter]
      simp only [Bool.and_self]
    have hws : promiseWeightedScore
        { l with promises := promisesInWindow l agent_id s e } params e
        = promiseWeightedScore l params e := rfl
    unfold compute_pdr
    dsimp only
    rw [hw, hws]
  · refine ⟨by decide, by decide, by decide, ?_⟩
    exact pdr_all_delivered_eq_one outWindowLedger "a" 0 86400 (by decide)
      (by decide)
      ⟨outWindowPromise, by decide, by norm_num [ageDays, outWindowPromise]⟩

/-- Witness for C9: the promise-restriction invariance applied at the
concrete ledger. -/
theorem pdr_window_restricts_only_promises_witness :
    compute_pdr { outWindowLedger with
        promises := promisesInWindow outWindowLedger "a" 0 86400 }
      defaultPDRParams "a" 0 86400
      = compute_pdr outWindowLedger defaultPDRParams "a" 0 86400 :=
  (pdr_window_restricts_only_promises).1 outWindowLedger defaultPDRParams
    "a" 0 86400

lemma chainTotalScoreAux_mono (m m' : List (String × ℚ)) :
    ∀ (chain : List EmailLedgerEntry) (d : ℕ),
      (∀ e ∈ chain, signerReliability m e ≤ signerReliability m' e) →
      chainTotalScoreAux m d chain ≤ chainTotalScoreAux m' d chain := by
  intro chain
  induction chain with
  | nil => intro d _; exact le_rfl
  | cons a t ih =>
    intro d hle
    unfold chainTotalScoreAux
    apply add_le_add
    · apply mul_le_mul_of_nonneg_right
      · exact_mod_cast hle a (by simp)
      · exact (Real.exp_pos _).le
    · exact ih (d + 1) (fun e he => hle e (by simp [he]))

lemma chainTotalScoreAux_strict_mono (m m' : List (String × ℚ)) :
    ∀ (chain : List EmailLedgerEntry) (d : ℕ),
      (∀ e ∈ chain, signerReliability m e ≤ signerReliability m' e) →
      (∃ e ∈ chain, signerReliability m e < signerReliability m' e) →
      chainTotalScoreAux m d chain < chainTotalScoreAux m' d chain := by
  intro chain
  induction chain with
  | nil =>
    intro d _ hex
    simp at hex
  | cons a t ih =>
    intro d hle hex
    unfold chainTotalScoreAux
    obtain ⟨e, he, hlt⟩ := hex
    rcases List.mem_cons.mp he with rfl | hmem
    · apply add_lt_add_of_lt_of_le
      · exact mul_lt_mul_of_pos_right (by exact_mod_cast hlt) (Real.exp_pos _)
      · exact chainTotalScoreAux_mono m m' t (d + 1)
          (fun e' he' => hle e' (by simp [he']))
    · apply add_lt_add_of_le_of_lt
      · apply mul_le_mul_of_nonneg_right
        · exact_mod_cast hle a (by simp)
        · exact (Real.exp_pos _).le
      · exact ih (d + 1) (fun e' he' => hle e' (by simp [he'])) ⟨e, hmem, hlt⟩

lemma chainTotalScoreAux_congr (m m'' : List (String × ℚ)) :
    ∀ (chain : List EmailLedgerEntry) (d : ℕ),
      (∀ e ∈ chain, signerReliability m'' e = signerReliability m e) →
      chainTotalScoreAux m'' d chain = chainTotalScoreAux m d chain := by
  intro chain
  induction chain with
  | nil => intro d _; rfl
  | cons a t ih =>
    intro d hag
    unfold chainTotalScoreAux
    rw [hag a (by simp), ih (d + 1) (fun e he => hag e (by simp [he]))]

lemma clamp01_eq_cases (x y : ℝ) (hxy : x < y)
    (heq : max 0 (min 1 x) = max 0 (min 1 y)) :
    max 0 (min 1 x) = 0 ∨ max 0 (min 1 x) = 1 := by
  rcases le_or_lt x 0 with h0 | h0
  · exact Or.inl (max_eq_left (le_trans (min_le_right _ _) h0))
  · rcases le_or_lt 1 y with h1 | h1
    · refine Or.inr ?_
      rw [heq, min_eq_left h1]
      exact max_eq_right zero_le_one
    · exfalso
      have hx1 : x < 1 := lt_trans hxy h1
      have hcx : max 0 (min 1 x) = x := by
        rw [min_eq_right hx1.le, max_eq_right h0.le]
      have hcy : max 0 (min 1 y) = y := by
        rw [min_eq_right h1.le, max_eq_right (lt_trans h0 hxy).le]
      rw [hcx, hcy] at heq
      exact absurd heq (ne_of_lt hxy)

lemma chainScoreOfChain_of_ne_nil (m : List (String × ℚ))
    (chain : List EmailLedgerEntry) (hne : chain ≠ []) :
    chainScoreOfChain m chain =
      max 0 (min 1 ((chainTotalScore m chain
        + min (1/5) ((distinctSignerCount chain : ℝ) * (1/20))
        - min (1/2) ((chainBreakCount chain : ℝ) * (1/5)))
        / (chain.length : ℝ))) := by
  unfold chainScoreOfChain
  dsimp only
  rw [if_neg hne]

/-- C8.  For a non-empty chain retrieved from the ledger: strictly increasing
the reliability of a signer domain that appears in the chain weakly
increases `compute_chain_score`'s result, with equality only when the result
is pinned at the clamp (0 or 1); and any map agreeing with the original on
every domain referenced by the chain yields the identical result. -/
theorem chain_score_signer_reliability_monotone
    (l : Ledger) (fuel : ℕ) (mid : String) (chain : List EmailLedgerEntry)
    (hchain : l.get_email_chainF fuel mid = some chain)
    (m m' : List (String × ℚ)) (dom : String)
    (hdom : ∃ e ∈ chain, signerDomain e.signer = dom)
    (hagree : ∀ k, k ≠ dom → dictGet m' k (1/2) = dictGet m k (1/2))
    (hlt : dictGet m dom (1/2) < dictGet m' dom (1/2)) :
    compute_chain_score l fuel mid m = some (chainScoreOfChain m chain) ∧
    compute_chain_score l fuel mid m' = some (chainScoreOfChain m' chain) ∧
    chainScoreOfChain m chain ≤ chainScoreOfChain m' chain ∧
    (chainScoreOfChain m chain = chainScoreOfChain m' chain →
      chainScoreOfChain m chain = 0 ∨ chainScoreOfChain m chain = 1) ∧
    (∀ m'' : List (String × ℚ),
      (∀ e ∈ chain, dictGet m'' (signerDomain e.signer) (1/2)
        = dictGet m (signerDomain e.signer) (1/2)) →
      compute_chain_score l fuel mid m'' = compute_chain_score l fuel mid m) := by
  have hne : chain ≠ [] := by
    obtain ⟨e, he, _⟩ := hdom
    intro h
    rw [h] at he
    exact (List.not_mem_nil e) he
  have hle : ∀ e ∈ chain, signerReliability m e ≤ signerReliability m' e := by
    intro e he
    unfold signerReliability
    by_cases hkey : signerDomain e.signer = dom
    · rw [hkey]
      exact hlt.le
    · rw [hagree _ hkey]
  have hex : ∃ e ∈ chain, signerReliability m e < signerReliability m' e := by
    obtain ⟨e, he, hk⟩ := hdom
    refine ⟨e, he, ?_⟩
    unfold signerReliability
    rw [hk]
    exact hlt
  have htot : chainTotalScore m chain < chainTotalScore m' chain :=
    chainTotalScoreAux_strict_mono m m' chain 0 hle hex
  have hlen : (0:ℝ) < (chain.length : ℝ) := by
    exact_mod_cast List.length_pos.mpr hne
  have hraw : (chainTotalScore m chain
        + min (1/5) ((distinctSignerCount chain : ℝ) * (1/20))
        - min (1/2) ((chainBreakCount chain : ℝ) * (1/5))) / (chain.length : ℝ)
      < (chainTotalScore m' chain
        + min (1/5) ((distinctSignerCount chain : ℝ) * (1/20))
        - min (1/2) ((chainBreakCount chain : ℝ) * (1/5))) / (chain.length : ℝ) :=
    (div_lt_div_right hlen).mpr (by linarith)
  refine ⟨by simp [compute_chain_score, hchain],
    by simp [compute_chain_score, hchain], ?_, ?_, ?_⟩
  · rw [chainScoreOfChain_of_ne_nil m chain hne,
      chainScoreOfChain_of_ne_nil m' chain hne]
    exact max_le_max le_rfl (min_le_min le_rfl hraw.le)
  · intro heq
    rw [chainScoreOfChain_of_ne_nil m chain hne]
    rw [chainScoreOfChain_of_ne_nil m chain hne,
      chainScoreOfChain_of_ne_nil m' chain hne] at heq
    exact clamp01_eq_cases _ _ hraw heq
  · intro m'' hag
    have hcongr : chainScoreOfChain m'' chain = chainScoreOfChain m chain := by
      have hTS : chainTotalScore m'' chain = chainTotalScore m chain :=
        chainTotalScoreAux_congr m m'' chain 0
          (fun e he => by unfold signerReliability; rw [hag e he])
      rw [chainScoreOfChain_of_ne_nil m'' chain hne,
        chainScoreOfChain_of_ne_nil m chain hne, hTS]
    simp [compute_chain_score, hchain, hcongr]

lemma dictGet_nil (key : String) (d : ℚ) : dictGet [] key d = d := rfl

lemma dictGet_cons_ne (k₀ : String) (v : ℚ) (rest : List (String × ℚ))
    (key : String) (d : ℚ) (h : k₀ ≠ key) :
    dictGet ((k₀, v) :: rest) key d = dictGet rest key d := by
  unfold dictGet
  rw [List.find?_cons_of_neg]
  simp [h]

/-- Witness for C8 at a concrete one-entry chain, raising the reliability of
domain example.com from the 0.5 default to 1. -/
theorem chain_score_signer_reliability_monotone_witness :
    compute_chain_score chainLedgerW 2 "m1" []
        = some (chainScoreOfChain [] [chainEntryW]) ∧
    compute_chain_score chainLedgerW 2 "m1" [("example.com", 1)]
        = some (chainScoreOfChain [("example.com", 1)] [chainEntryW]) ∧
    chainScoreOfChain [] [chainEntryW]
        ≤ chainScoreOfChain [("example.com", 1)] [chainEntryW] ∧
    (chainScoreOfChain [] [chainEntryW]
        = chainScoreOfChain [("example.com", 1)] [chainEntryW] →
      chainScoreOfChain [] [chainEntryW] = 0 ∨
        chainScoreOfChain [] [chainEntryW] = 1) ∧
    (∀ m'' : List (String × ℚ),
      (∀ e ∈ [chainEntryW], dictGet m'' (signerDomain e.signer) (1/2)
        = dictGet [] (signerDomain e.signer) (1/2)) →
      compute_chain_score chainLedgerW 2 "m1" m''
        = compute_chain_score chainLedgerW 2 "m1" []) :=
  chain_score_signer_reliability_monotone chainLedgerW 2 "m1" [chainEntryW]
    (by decide) [] [("example.com", 1)] "example.com"
    (by decide)
    (fun k hk => by
      rw [dictGet_cons_ne "example.com" 1 [] k (1/2) (Ne.symm hk)])
    (by
      rw [show dictGet [] "example.com" (1/2) = 1/2 from rfl,
        show dictGet [("example.com", 1)] "example.com" (1/2) = 1 from rfl]
      norm_num)

lemma chainWalk_spec (l : Ledger) :
    ∀ (fuel : ℕ) (e : EmailLedgerEntry) (c : List EmailLedgerEntry),
      chainWalk l fuel e = some c → ChainInv l e c := by
  intro fuel
  induction fuel with
  | zero =>
    intro e c h
    exact absurd h (by simp [chainWalk])
  | succ n ih =>
    intro e c h
    unfold chainWalk at h
    cases hp : parentEntry l e with
    | none =>
      rw [hp] at h
      injection h with h
      subst h
      refine ⟨by simp, by simp, by simp, ?_⟩
      intro x hx
      simp at hx
      subst hx
      exact hp
    | some p =>
      rw [hp] at h
      obtain ⟨c', hc', rfl⟩ := Option.map_eq_some'.mp h
      obtain ⟨hne', hlast', hchain', hhead'⟩ := ih p c' hc'
      obtain ⟨h0, t0, rfl⟩ := List.exists_cons_of_ne_nil hne'
      refine ⟨by simp, ?_, ?_, ?_⟩
      · rw [List.getLast?_concat]
      · refine List.Chain'.append hchain' (List.chain'_singleton e) ?_
        intro x hx y hy
        simp only [List.head?_cons, Option.mem_def, Option.some.injEq] at hy
        rw [hlast'] at hx
        simp only [Option.mem_def, Option.some.injEq] at hx
        subst hx
        subst hy
        exact hp
      · intro x hx
        simp only [List.cons_append, List.head?_cons, Option.mem_def,
          Option.some.injEq] at hx
        subst hx
        exact hhead' h0 (by simp)

lemma chainWalk_mono (l : Ledger) :
    ∀ (fuel fuel' : ℕ) (e : EmailLedgerEntry) (c : List EmailLedgerEntry),
      fuel ≤ fuel' → chainWalk l fuel e = some c →
      chainWalk l fuel' e = some c := by
  intro fuel
  induction fuel with
  | zero =>
    intro fuel' e c _ h
    simp [chainWalk] at h
  | succ n ih =>
    intro fuel' e c hle h
    cases fuel' with
    | zero => omega
    | succ k =>
      cases hp : parentEntry l e with
      | none =>
        unfold chainWalk at h ⊢
        rw [hp] at h ⊢
        exact h
      | some p =>
        unfold chainWalk at h ⊢
        rw [hp] at h ⊢
        obtain ⟨c', hc', rfl⟩ := Option.map_eq_some'.mp h
        show Option.map (fun c => c ++ [e]) (chainWalk l k p) = some (c' ++ [e])
        rw [ih k p c' (by omega) hc']
        rfl

lemma chainWalk_none_iterate (l : Ledger) :
    ∀ (fuel : ℕ) (e : EmailLedgerEntry),
      chainWalk l fuel e = none → ∃ v, parentIterN l fuel e = some v := by
  intro fuel
  induction fuel with
  | zero =>
    intro e _
    exact ⟨e, rfl⟩
  | succ n ih =>
    intro e h
    unfold chainWalk at h
    cases hp : parentEntry l e with
    | none =>
      rw [hp] at h
      simp at h
    | some p =>
      rw [hp] at h
      have h' : (chainWalk l n p).map (fun c => c ++ [e]) = none := h
      rw [Option.map_eq_none'] at h'
      obtain ⟨v, hv⟩ := ih p h'
      refine ⟨v, ?_⟩
      unfold parentIterN
      rw [hp, Option.some_bind]
      exact hv

lemma parentEntry_mem (l : Ledger) (e p : EmailLedgerEntry)
    (h : parentEntry l e = some p) : p ∈ l.email_entries := by
  unfold parentEntry at h
  cases he : e.in_reply_to with
  | none =>
    rw [he] at h
    cases h
  | some pid =>
    rw [he] at h
    have h' : (if pid = "" then none else l.get_email_entry pid) = some p := h
    by_cases hpid : pid = ""
    · rw [if_pos hpid] at h'
      cases h'
    · rw [if_neg hpid] at h'
      exact List.mem_of_find?_eq_some h'

lemma parentIterN_mem (l : Ledger) :
    ∀ (n : ℕ) (e v : EmailLedgerEntry), 0 < n →
      parentIterN l n e = some v → v ∈ l.email_entries := by
  intro n
  induction n with
  | zero =>
    intro e v h
    omega
  | succ k ih =>
    intro e v _ h
    unfold parentIterN at h
    cases hp : parentEntry l e with
    | none =>
      rw [hp, Option.none_bind] at h
      cases h
    | some p =>
      rw [hp, Option.some_bind] at h
      cases k with
      | zero =>
        have h' : p = v := Option.some.inj h
        subst h'
        exact parentEntry_mem l e p hp
      | succ k' =>
        exact ih p v (by omega) h

lemma parentIterN_succ (l : Ledger) (n : ℕ) (e : EmailLedgerEntry) :
    parentIterN l (n + 1) e = (parentEntry l e).bind (parentIterN l n) := rfl

lemma parentIterN_add (l : Ledger) :
    ∀ (i n : ℕ) (e : EmailLedgerEntry),
      parentIterN l (i + n) e
        = (parentIterN l i e).bind (fun x => parentIterN l n x) := by
  intro i
  induction i with
  | zero =>
    intro n e
    rw [Nat.zero_add]
    rfl
  | succ k ih =>
    intro n e
    rw [show k + 1 + n = (k + n) + 1 from by omega, parentIterN_succ,
      parentIterN_succ]
    cases hp : parentEntry l e with
    | none =>
      simp only [Option.none_bind]
    | some p =>
      simp only [Option.some_bind]
      exact ih n p

lemma parentIterN_zero (l : Ledger) (e : EmailLedgerEntry) :
    parentIterN l 0 e = some e := rfl

lemma chainWalk_terminates (l : Ledger)
    (hnodup : (l.email_entries.map EmailLedgerEntry.message_id).Nodup)
    (hacyc : l.ThreadAcyclic) (e : EmailLedgerEntry)
    (he : e ∈ l.email_entries) :
    ∃ c, chainWalk l (l.email_entries.length + 1) e = some c := by
  cases hw : chainWalk l (l.email_entries.length + 1) e with
  | some c => exact ⟨c, rfl⟩
  | none =>
    exfalso
    obtain ⟨v, hv⟩ := chainWalk_none_iterate l _ e hw
    have hsome : ∀ i, i ≤ l.email_entries.length + 1 →
        ∃ u, parentIterN l i e = some u := by
      intro i hi
      have hadd := parentIterN_add l i (l.email_entries.length + 1 - i) e
      rw [show i + (l.email_entries.length + 1 - i)
          = l.email_entries.length + 1 from by omega, hv] at hadd
      cases hu : parentIterN l i e with
      | none =>
        rw [hu, Option.none_bind] at hadd
        cases hadd
      | some u => exact ⟨u, rfl⟩
    have hf : ∀ i, i ≤ l.email_entries.length + 1 →
        parentIterN l i e = some ((parentIterN l i e).getD e) := by
      intro i hi
      obtain ⟨u, hu⟩ := hsome i hi
      rw [hu]
      rfl
    have hmemf : ∀ i, i ≤ l.email_entries.length + 1 →
        (parentIterN l i e).getD e ∈ l.email_entries := by
      intro i hi
      cases Nat.eq_zero_or_pos i with
      | inl h0 =>
        subst h0
        rw [parentIterN_zero]
        exact he
      | inr hpos => exact parentIterN_mem l i e _ hpos (hf i hi)
    have key : ∀ i j, i < j → j ≤ l.email_entries.length + 1 →
        ((parentIterN l i e).getD e).message_id
          = ((parentIterN l j e).getD e).message_id → False := by
      intro i j hij hj hid
      have hi : i ≤ l.email_entries.length + 1 := by omega
      have hfi := hf i hi
      have hfj := hf j hj
      have hmi := hmemf i hi
      have hmj := hmemf j hj
      have heq : (parentIterN l i e).getD e = (parentIterN l j e).getD e :=
        List.inj_on_of_nodup_map hnodup hmi hmj hid
      have hstep : parentIterN l (i + (j - i)) e
          = some ((parentIterN l j e).getD e) := by
        rw [show i + (j - i) = j from by omega]
        exact hfj
      rw [parentIterN_add l i (j - i) e, hfi, Option.some_bind] at hstep
      rw [← heq] at hstep
      exact hacyc _ hmi (j - i) (by omega) hstep
    have hnd : ((List.range (l.email_entries.length + 2)).map
        (fun i => ((parentIterN l i e).getD e).message_id)).Nodup := by
      refine List.Nodup.map_on ?_ (List.nodup_range _)
      intro i hi j hj hij
      rw [List.mem_range] at hi hj
      by_contra hne
      rcases Nat.lt_or_ge i j with hlt | hge
      · exact key i j hlt (by omega) hij
      · exact key j i (by omega) (by omega) hij.symm
    have hsub : ((List.range (l.email_entries.length + 2)).map
        (fun i => ((parentIterN l i e).getD e).message_id))
        ⊆ l.email_entries.map EmailLedgerEntry.message_id := by
      intro s hs
      obtain ⟨i, hi, rfl⟩ := List.mem_map.mp hs
      rw [List.mem_range] at hi
      exact List.mem_map_of_mem _ (hmemf i (by omega))
    have hlen := (List.subperm_of_subset hnd hsub).length_le
    simp only [List.length_map, List.length_range] at hlen
    omega

/-- C6.  For a ledger whose stored entries have pairwise distinct message
ids (they are dict keys in the source) and whose `in_reply_to` graph is
acyclic, the backward walk of `get_email_chain` terminates: there is a chain
`c`, returned for every sufficient fuel bound, which is empty exactly when
the message id is absent from the store, and otherwise is a root-first list
ending at the requested entry, each consecutive pair linked backward via
`in_reply_to`, the walk stopping at an entry with no truthy `in_reply_to`
resolving to a stored parent. -/
theorem get_email_chain_terminates_acyclic (l : Ledger) (mid : String)
    (hnodup : (l.email_entries.map EmailLedgerEntry.message_id).Nodup)
    (hacyc : l.ThreadAcyclic) :
    ∃ c : List EmailLedgerEntry,
      (∀ fuel, l.email_entries.length < fuel →
        l.get_email_chainF fuel mid = some c) ∧
      (l.get_email_entry mid = none → c = []) ∧
      (∀ e, l.get_email_entry mid = some e → ChainInv l e c) := by
  cases hm : l.get_email_entry mid with
  | none =>
    refine ⟨[], ?_, fun _ => rfl, ?_⟩
    · intro fuel _
      unfold Ledger.get_email_chainF
      rw [hm]
    · intro e he
      cases he
  | some e =>
    obtain ⟨c, hc⟩ := chainWalk_terminates l hnodup hacyc e
      (List.mem_of_find?_eq_some hm)
    refine ⟨c, ?_, ?_, ?_⟩
    · intro fuel hfuel
      unfold Ledger.get_email_chainF
      rw [hm]
      exact chainWalk_mono l _ fuel e c (by omega) hc
    · intro h
      cases h
    · intro e' he'
      have he'' : e = e' := Option.some.inj he'
      subst he''
      exact chainWalk_spec l _ e c hc

lemma parentIterN_none_of_parent_none (l : Ledger) (e : EmailLedgerEntry)
    (h : parentEntry l e = none) :
    ∀ n : ℕ, 0 < n → parentIterN l n e = none := by
  intro n hn
  cases n with
  | zero => omega
  | succ k =>
    rw [parentIterN_succ, h, Option.none_bind]

lemma threadLedgerW_acyclic : threadLedgerW.ThreadAcyclic := by
  intro e he n hn
  have hroot : parentEntry threadLedgerW threadEntryRoot = none := by decide
  have hrep : parentEntry threadLedgerW threadEntryReply
      = some threadEntryRoot := by decide
  have he' : e = threadEntryRoot ∨ e = threadEntryReply := by
    simpa [threadLedgerW] using he
  rcases he' with rfl | rfl
  · rw [parentIterN_none_of_parent_none _ _ hroot n hn]
    exact fun h => Option.noConfusion h
  · cases n with
    | zero => omega
    | succ k =>
      rw [parentIterN_succ, hrep, Option.some_bind]
      cases k with
      | zero =>
        rw [parentIterN_zero]
        decide
      | succ k' =>
        rw [parentIterN_none_of_parent_none _ _ hroot (k' + 1) (by omega)]
        exact fun h => Option.noConfusion h

/-- Witness for C6 at the concrete two-entry acyclic thread. -/
theorem get_email_chain_terminates_acyclic_witness :
    ∃ c : List EmailLedgerEntry,
      (∀ fuel, threadLedgerW.email_entries.length < fuel →
        threadLedgerW.get_email_chainF fuel "m2" = some c) ∧
      (threadLedgerW.get_email_entry "m2" = none → c = []) ∧
      (∀ e, threadLedgerW.get_email_entry "m2" = some e →
        ChainInv threadLedgerW e c) :=
  get_email_chain_terminates_acyclic threadLedgerW "m2" (by decide)
    threadLedgerW_acyclic
